import Mathlib

/-!
Verification development for the k-way sorted merger of labelled series
streams (binary min-heap variant and loser/tournament-tree variant) and the
adjacent-duplicate collapser wrapped around the heap.

The definitions below are a shallow embedding of the Go sources:
  * `ProxyTournamentTree` (`NewProxyTournamentTree`, `initialFix`, `Fix`,
    `Pop`) embeds the latest revision of the tournament tree
    (src/unnamed/part_002, lines 774-1170).
  * `ProxyResponseHeap` (with Go's `container/heap` siftup/siftdown) and
    `dedupResponseHeap` embed src/pkg/store/proxy_heap.go (second segment).
  * `MockStream` embeds the `mockSeriesSet` used by the repository's tests;
    `RespSet` embeds `respSet`.

Go interface values of type `storepb.SeriesSet` held in tree nodes alias the
underlying stream objects; the embedding therefore keeps an object store
(`streams`) and represents a `SeriesSet` reference as `Option Nat`: `some k`
is a pointer to `streams[k]`, `none` is the nil interface value (the
`infinity` sentinel).  Mutating a stream through one alias is visible
through every alias, exactly as in Go.
-/

set_option autoImplicit false

namespace ProxyMerge

/-- A label: `(name, value)` string pair, as in `prometheus/model/labels`. -/
abbrev Label := String × String

/-- An ordered label set. -/
abbrev LabelSet := List Label

/-- Comparison of a single label: name first, then value
(`labels.Compare` inner step). -/
def cmpLabel (a b : Label) : Ordering :=
  match compare a.1 b.1 with
  | Ordering.eq => compare a.2 b.2
  | o => o

/-- `labels.Compare`: lexicographic over the pair sequence; a strict prefix
is smaller. -/
def labelsCompare : LabelSet → LabelSet → Ordering
  | [], [] => Ordering.eq
  | [], _ :: _ => Ordering.lt
  | _ :: _, [] => Ordering.gt
  | a :: as, b :: bs =>
    match cmpLabel a b with
    | Ordering.eq => labelsCompare as bs
    | o => o

/-- `mockSeriesSet` from the test files: a list of label sets and a cursor
`i` (starting at 0). -/
structure MockStream where
  series : List LabelSet
  i : Nat
deriving Repr, DecidableEq

instance : Inhabited MockStream := ⟨⟨[], 0⟩⟩

/-- `mockSeriesSet.At`: returns `series[i]`, or nil labels when the cursor
is past the end (the test mock returns `nil, nil` in that case). -/
def MockStream.At (m : MockStream) : LabelSet :=
  m.series.getD m.i []

/-- `mockSeriesSet.Next`: increments the cursor, reports whether it still
points at an element. -/
def MockStream.Next (m : MockStream) : MockStream × Bool :=
  let m' : MockStream := { m with i := m.i + 1 }
  (m', decide (m'.i < m'.series.length))

/-- `treeAuxNode`: the borrowed stream reference plus the two mutually
exclusive back indices.  A Go literal `&treeAuxNode{ss: infinity}` leaves
both indices at their zero value `0`. -/
structure TreeAuxNode where
  ss : Option Nat
  previousAuxIndex : Int
  previousNodeIndex : Int
deriving Repr, DecidableEq

/-- `ProxyTournamentTree` state.  `streams` is the object store backing all
`SeriesSet` references; `nodes` are the leaf slots (`none` = `infinity`);
`auxiliaryNodes` entries are nil-able pointers. -/
structure ProxyTournamentTree where
  streams : List MockStream
  nodes : List (Option Nat)
  auxiliaryNodes : List (Option TreeAuxNode)
  lastChangedNodeIndex : Int
deriving Repr, DecidableEq

namespace ProxyTournamentTree

/-- Dereference a stream pointer and call `At` on it.  Only invoked where
the Go code has already checked the reference against `infinity`. -/
def refAt (t : ProxyTournamentTree) (k : Nat) : LabelSet :=
  (t.streams.getD k default).At

/-- Read a leaf slot (in-range by construction wherever the Go code reads
one unguarded). -/
def leaf (t : ProxyTournamentTree) (i : Nat) : Option Nat :=
  t.nodes.getD i none

/-- Read an auxiliary slot. -/
def aux (t : ProxyTournamentTree) (i : Nat) : Option TreeAuxNode :=
  t.auxiliaryNodes.getD i none

/-- The `ss` field of an auxiliary slot; a nil pointer is only read this way
where the Go code cannot reach it (the slot is always populated there), so
the `none` default is never observable on those paths. -/
def auxSS (t : ProxyTournamentTree) (i : Nat) : Option Nat :=
  match t.aux i with
  | some n => n.ss
  | none => none

/-- Write an auxiliary slot (Go slice store; all stores are in range on the
executions the claims exercise, and `List.set` is the identity out of
range). -/
def setAux (t : ProxyTournamentTree) (i : Nat) (v : Option TreeAuxNode) :
    ProxyTournamentTree :=
  { t with auxiliaryNodes := t.auxiliaryNodes.set i v }

end ProxyTournamentTree

/-- `nextLevelNodeCount` from src/unnamed/part_002. -/
def nextLevelNodeCount (n : Nat) : Nat :=
  if n % 2 = 0 then n / 2
  else if n = 1 then 0
  else 1 + n / 2

/-- The auxiliary-node counting loop of `NewProxyTournamentTree`:
`for n > 1 { auxNodes += ⌈n/2⌉; n = ⌈n/2⌉ }`.  Structural recursion on a
fuel argument (the loop variable strictly decreases, so fuel `n` is enough
and the fuel never runs out on the Go loop's executions). -/
def auxNodesCountGo (fuel n : Nat) : Nat :=
  match fuel with
  | 0 => 0
  | Nat.succ f =>
    if n > 1 then
      if n % 2 = 0 then n / 2 + auxNodesCountGo f (n / 2)
      else (1 + n / 2) + auxNodesCountGo f (1 + n / 2)
    else 0

def auxNodesCount (n : Nat) : Nat := auxNodesCountGo n n

namespace ProxyTournamentTree

/-- Winner of one adjacent leaf pair `(left, left+1)` during `initialFix`
(bottom level), byte for byte the four-way branch of the Go code — including
the slip that the `left = ∞, right ≠ ∞` branch records `previousNodeIndex:
left`, and that a tie (`Compare` not `< 0`) selects the right leaf. -/
def leafPairWinner (t : ProxyTournamentTree) (left : Nat) : TreeAuxNode :=
  let right := left + 1
  match t.leaf left, t.leaf right with
  | some kl, none =>
      { ss := some kl, previousAuxIndex := -1, previousNodeIndex := (left : Int) }
  | none, some kr =>
      { ss := some kr, previousAuxIndex := -1, previousNodeIndex := (left : Int) }
  | none, none =>
      { ss := none, previousAuxIndex := 0, previousNodeIndex := 0 }
  | some kl, some kr =>
      if labelsCompare (t.refAt kl) (t.refAt kr) = Ordering.lt then
        { ss := some kl, previousAuxIndex := -1, previousNodeIndex := (left : Int) }
      else
        { ss := some kr, previousAuxIndex := -1, previousNodeIndex := (right : Int) }

/-- The bottom-level loop of `initialFix`:
`for left := 0; left < len(nodes); left += 2 { aux[left/2] = winner }`.
Fuel `len(nodes) + 1` is enough. -/
def initialBottomGo (t : ProxyTournamentTree) (left fuel : Nat) :
    ProxyTournamentTree :=
  match fuel with
  | 0 => t
  | Nat.succ f =>
    if left < t.nodes.length then
      initialBottomGo (t.setAux (left / 2) (some (t.leafPairWinner left)))
        (left + 2) f
    else t

/-- One write of the upper-level inner loop of `initialFix`.  `frm` is the
start of the level being written; `prevIdx` walks the previous level in
steps of two, and the pair compared is `(prevIdx, prevIdx+1)` or
`(prevIdx-1, prevIdx)` by parity of `prevIdx`. -/
def upperWriteOne (t : ProxyTournamentTree) (frm loserIdx prevIdx : Nat) :
    ProxyTournamentTree :=
  let leftIdx : Nat := if prevIdx % 2 = 0 then prevIdx else prevIdx - 1
  let rightIdx : Nat := if prevIdx % 2 = 0 then prevIdx + 1 else prevIdx
  let nilAuxNode : Nat → Bool := fun i => decide (t.auxSS i = none)
  let node : TreeAuxNode :=
    if rightIdx ≥ frm ∨ nilAuxNode rightIdx then
      { ss := t.auxSS leftIdx,
        previousAuxIndex := (leftIdx : Int), previousNodeIndex := -1 }
    else if nilAuxNode leftIdx ∧ ¬ nilAuxNode rightIdx then
      { ss := t.auxSS rightIdx,
        previousAuxIndex := (rightIdx : Int), previousNodeIndex := -1 }
    else
      match t.auxSS leftIdx, t.auxSS rightIdx with
      | some kl, some kr =>
        if labelsCompare (t.refAt kl) (t.refAt kr) = Ordering.lt then
          { ss := some kl,
            previousAuxIndex := (leftIdx : Int), previousNodeIndex := -1 }
        else
          { ss := some kr,
            previousAuxIndex := (rightIdx : Int), previousNodeIndex := -1 }
      | _, _ =>
        -- unreachable: both guards above already dealt with nil `ss` values
        { ss := none,
          previousAuxIndex := (leftIdx : Int), previousNodeIndex := -1 }
  t.setAux loserIdx (some node)

/-- The inner loop `for loserIdx := from; loserIdx <= until; loserIdx++`.
Fuel `untl + 2` is enough. -/
def upperLevelGo (t : ProxyTournamentTree) (frm loserIdx untl prevIdx fuel : Nat) :
    ProxyTournamentTree :=
  match fuel with
  | 0 => t
  | Nat.succ f =>
    if loserIdx ≤ untl then
      upperLevelGo (t.upperWriteOne frm loserIdx prevIdx) frm (loserIdx + 1)
        untl (prevIdx + 2) f
    else t

/-- The outer loop `for nodesInLevel >= 1` of `initialFix`, building the
levels above the bottom one.  `lastLoserIndex` and the running `from` are
nonnegative here because the loop is only entered with at least one bottom
pair written.  `nodesInLevel` strictly decreases, so fuel
`nodesInLevel + 1` is enough. -/
def upperLoopGo (t : ProxyTournamentTree)
    (lastLoserIndex frmPrev nodesInLevel fuel : Nat) : ProxyTournamentTree :=
  match fuel with
  | 0 => t
  | Nat.succ f =>
    if nodesInLevel ≥ 1 then
      let previousLevelIdx := frmPrev
      let frm := lastLoserIndex + 1
      let untl := lastLoserIndex + nodesInLevel
      let t' := t.upperLevelGo frm frm untl previousLevelIdx (untl + 2)
      upperLoopGo t' untl frm (nextLevelNodeCount nodesInLevel) f
    else t

/-- `initialFix` of the latest tournament-tree revision. -/
def initialFix (t : ProxyTournamentTree) : ProxyTournamentTree :=
  let t' := t.initialBottomGo 0 (t.nodes.length + 1)
  -- after the bottom loop, lastLoserIndex = len(nodes)/2 - 1 (or -1 when
  -- there are no leaves, in which case the guard below fails or the upper
  -- loop is vacuous since nodesInLevel = 0)
  if t'.nodes.length = 0 then
    t'
  else if t'.nodes.length / 2 - 1 < t'.auxiliaryNodes.length then
    let nodesInLevel := nextLevelNodeCount (nextLevelNodeCount t'.nodes.length)
    t'.upperLoopGo (t'.nodes.length / 2 - 1) 0 nodesInLevel (nodesInLevel + 1)
  else t'

/-- `peekNode` helper of `Fix`: read a leaf slot or an aux node's stream
reference; out-of-range yields `infinity` exactly as in the Go helper
(`List.getD` subsumes the explicit range guards). -/
def peekNodeM (t : ProxyTournamentTree) (i : Nat) (lookInNodes : Bool) :
    Option Nat :=
  if lookInNodes then t.leaf i else t.auxSS i

/-- `nilNode` helper of `Fix`: a slot is nil when it is out of range, holds
the nil/`infinity` interface value, or (aux case) its `ss` is `infinity`. -/
def nilNodeM (t : ProxyTournamentTree) (i : Nat) (lookInNodes : Bool) : Bool :=
  decide (peekNodeM t i lookInNodes = none)

/-- Store a winner into `aux[loserIdx]`; `lookInNodes` picks which of the
two back indices is set, as in every write of `Fix`. -/
def fixWrite (t : ProxyTournamentTree) (loserIdx : Nat) (r : Option Nat)
    (idx : Nat) (lookInNodes : Bool) : ProxyTournamentTree :=
  if lookInNodes then
    t.setAux loserIdx (some
      { ss := r, previousAuxIndex := -1, previousNodeIndex := (idx : Int) })
  else
    t.setAux loserIdx (some
      { ss := r, previousAuxIndex := (idx : Int), previousNodeIndex := -1 })

/-- The `for nodesInLevel > 0` loop of `Fix` (latest revision, including the
`rightIdx >= from` guard evaluated against the *aux-level* bound even on the
first, leaf-level iteration).  `nodesInLevel` strictly decreases, so fuel
`nodesInLevel + 1` is enough. -/
def fixLoop (t : ProxyTournamentTree)
    (nodesInLevel frm untl auxNodeOffset leftIdx rightIdx : Nat)
    (lookInNodes : Bool) (fuel : Nat) : ProxyTournamentTree :=
  match fuel with
  | 0 => t
  | Nat.succ f =>
    if nodesInLevel > 0 then
      let loserIdx := frm + auxNodeOffset
      let t' :=
        if rightIdx ≥ frm ∨ nilNodeM t rightIdx lookInNodes then
          fixWrite t loserIdx (peekNodeM t leftIdx lookInNodes) leftIdx
            lookInNodes
        else if ¬ nilNodeM t rightIdx lookInNodes ∧ nilNodeM t leftIdx lookInNodes then
          fixWrite t loserIdx (peekNodeM t rightIdx lookInNodes) rightIdx
            lookInNodes
        else if nilNodeM t rightIdx lookInNodes ∧ nilNodeM t leftIdx lookInNodes then
          t.setAux loserIdx (some
            { ss := none, previousAuxIndex := 0, previousNodeIndex := 0 })
        else
          match peekNodeM t leftIdx lookInNodes, peekNodeM t rightIdx lookInNodes with
          | some kl, some kr =>
            if labelsCompare (t.refAt kl) (t.refAt kr) = Ordering.lt then
              fixWrite t loserIdx (some kl) leftIdx lookInNodes
            else
              fixWrite t loserIdx (some kr) rightIdx lookInNodes
          | _, _ => t  -- unreachable: earlier branches handled nil values
      let nodesInLevel' := nextLevelNodeCount nodesInLevel
      let leftIdx' := if loserIdx % 2 = 0 then loserIdx else loserIdx - 1
      let rightIdx' := if loserIdx % 2 = 0 then loserIdx + 1 else loserIdx
      fixLoop t' nodesInLevel' (untl + 1) (untl + nodesInLevel')
        (auxNodeOffset / 2) leftIdx' rightIdx' false f
    else t

/-- `Fix` of the latest revision.  `none` models the panic
`"BUG: please call Fix() only after Pop()"` raised before any mutation when
`lastChangedNodeIndex` is still `-1` (a negative index would likewise abort
on the slice access), and the nil-interface `Next` dereference when the
changed leaf slot holds `infinity`. -/
def Fix (t : ProxyTournamentTree) : Option ProxyTournamentTree :=
  if t.lastChangedNodeIndex < 0 then none
  else
    let lc := t.lastChangedNodeIndex.toNat
    match t.leaf lc with
    | none => none
    | some k =>
      let (m', ok) := (t.streams.getD k default).Next
      let t1 := { t with streams := t.streams.set k m' }
      let t2 := if ok then t1 else { t1 with nodes := t1.nodes.set lc none }
      let nodesInLevel := nextLevelNodeCount t2.nodes.length
      let frm := 0
      let untl := nodesInLevel - 1
      let auxNodeOffset := lc / 2
      let leftIdx := if lc % 2 = 0 then lc else lc - 1
      let rightIdx := if lc % 2 = 0 then lc + 1 else lc
      some (fixLoop t2 nodesInLevel frm untl auxNodeOffset leftIdx rightIdx
        true (nodesInLevel + 1))

/-- The winner-chain walk of `Pop`: follow `previousAuxIndex` indirections,
vacating each visited aux slot, until a node carrying a leaf back index is
reached; returns the state and the originating leaf index.  `none` models a
Go panic (nil dereference / index out of range) or the loop spinning forever
on a node with both indices `-1`; fuel `|aux| + 1` is exact because a
terminating walk can only visit pairwise-distinct, not-yet-vacated slots. -/
def popWalk (t : ProxyTournamentTree) (curNodeIdx fuel : Nat) :
    Option (ProxyTournamentTree × Nat) :=
  match fuel with
  | 0 => none
  | Nat.succ fuel =>
    match t.aux curNodeIdx with
    | none => none
    | some cur =>
      if cur.previousAuxIndex ≠ -1 then
        if 0 ≤ cur.previousAuxIndex ∧
            cur.previousAuxIndex.toNat < t.auxiliaryNodes.length then
          popWalk (t.setAux curNodeIdx none) cur.previousAuxIndex.toNat fuel
        else none
      else if cur.previousNodeIndex ≠ -1 then
        some (t.setAux curNodeIdx none, cur.previousNodeIndex.toNat)
      else none

/-- `Pop` of the latest revision: read the root; if it is nil or holds the
`infinity` sentinel return nil (no mutation), otherwise walk the winner
chain and return the winning stream reference.  The outer `none` models a Go
panic (including the empty-aux slice access `aux[len-1]`). -/
def Pop (t : ProxyTournamentTree) :
    Option (Option Nat × ProxyTournamentTree) :=
  if t.auxiliaryNodes.length = 0 then none
  else
    match t.aux (t.auxiliaryNodes.length - 1) with
    | none => some (none, t)
    | some loserNode =>
      if loserNode.ss = none then some (none, t)
      else
        match popWalk t (t.auxiliaryNodes.length - 1)
            (t.auxiliaryNodes.length + 1) with
        | none => none
        | some (t', leafIdx) =>
          some (loserNode.ss,
            { t' with lastChangedNodeIndex := (leafIdx : Int) })

end ProxyTournamentTree

/-- The leaf-slot vector handed to the tree over `n` live streams: one
reference per stream, padded with one `infinity` sentinel when `n` is odd
(`if len(nodes)%2 != 0 { nodes = append(nodes, infinity) }`). -/
def newTreeNodes (n : Nat) : List (Option Nat) :=
  let nodes0 : List (Option Nat) := (List.range n).map some
  if nodes0.length % 2 ≠ 0 then nodes0 ++ [none] else nodes0

/-- The `ProxyTournamentTree` record as assembled by `NewProxyTournamentTree`
before `initialFix` runs. -/
def newTreeBase (inputs : List (List LabelSet)) : ProxyTournamentTree :=
  let streams : List MockStream := inputs.map (fun s => ⟨s, 0⟩)
  { streams := streams, nodes := newTreeNodes streams.length,
    auxiliaryNodes :=
      List.replicate (auxNodesCount (newTreeNodes streams.length).length) none,
    lastChangedNodeIndex := -1 }

/-- `NewProxyTournamentTree`: pad an odd leaf count with the `infinity`
sentinel, allocate the auxiliary nodes, run `initialFix`. -/
def NewProxyTournamentTree (inputs : List (List LabelSet)) :
    ProxyTournamentTree :=
  (newTreeBase inputs).initialFix

/-- The Pop/Fix consumption loop used by the repository's tests
(`TestTournamentTreePop`, `TestTournamentTreeCharacteristics`): pop, read
the emitted stream's current labels, fix, repeat until `Pop` returns nil.
The fuel only cuts short executions that the Go code would abort or never
complete either. -/
def treeRun (fuel : Nat) (t : ProxyTournamentTree) : List LabelSet :=
  match fuel with
  | 0 => []
  | Nat.succ fuel =>
    match t.Pop with
    | none => []
    | some (none, _) => []
    | some (some k, t') =>
      let lbls := t'.refAt k
      match t'.Fix with
      | none => [lbls]
      | some t'' => lbls :: treeRun fuel t''

/-! ## The heap merger and the dedup wrapper (src/pkg/store/proxy_heap.go) -/

/-- `storepb.AggrChunk`: an opaque chunk; `raw` stands for the encoded
bytes.  The Go zero value is `raw = 0`. -/
structure AggrChunk where
  raw : Nat
deriving Repr, DecidableEq

instance : Inhabited AggrChunk := ⟨⟨0⟩⟩

/-- Modelled from the spec: `storepb.AggrChunk.Hash` is not under `src/`;
the spec stipulates a pure, deterministic content hash with negligible
collision probability, idealised here as the identity on the encoded
bytes. -/
def AggrChunk.Hash (c : AggrChunk) : Nat := c.raw

/-- `*storepb.SeriesResponse`: either a series payload or a non-series item
(`GetSeries() == nil`, e.g. a warning). -/
inductive SeriesResponse where
  | series (labels : LabelSet) (chunks : List AggrChunk)
  | warning
deriving Repr, DecidableEq

instance : Inhabited SeriesResponse := ⟨SeriesResponse.warning⟩

/-- `GetSeries().Labels` where the caller has ensured the response is a
series (`warning` is unreachable on those paths: Go would nil-panic). -/
def SeriesResponse.labelsOf : SeriesResponse → LabelSet
  | SeriesResponse.series l _ => l
  | SeriesResponse.warning => []

/-- `GetSeries().Chunks` under the same proviso. -/
def SeriesResponse.chunksOf : SeriesResponse → List AggrChunk
  | SeriesResponse.series _ c => c
  | SeriesResponse.warning => []

/-- `respSet`: a materialised response vector with a cursor. -/
structure RespSet where
  responses : List SeriesResponse
  i : Nat
deriving Repr, DecidableEq

/-- `respSet.At`: `responses[i]` (in range whenever the Go code calls it;
out of range Go would panic). -/
def RespSet.At (s : RespSet) : SeriesResponse :=
  s.responses.getD s.i default

/-- `respSet.Next`. -/
def RespSet.Next (s : RespSet) : RespSet × Bool :=
  let s' : RespSet := { s with i := s.i + 1 }
  (s', decide (s'.i < s'.responses.length))

/-- Modelled from the spec: an arbitrary implementation of the
`storepb.SeriesSet` interface the heap consumes.  The interface (declared
outside `src/`) carries `Err() error`; production streams are gRPC-backed
and may surface a non-null error (spec §4.A), unlike the concrete `respSet`
above whose `Err` is always nil. -/
structure ErrStream where
  resp : SeriesResponse
  err : Option String
deriving Repr, DecidableEq

/-- An interface value held by a heap node: dynamic dispatch over the
stream implementations. -/
inductive Child where
  | respSet (rs : RespSet)
  | errStream (es : ErrStream)
deriving Repr, DecidableEq

instance : Inhabited Child := ⟨Child.respSet ⟨[], 0⟩⟩

def Child.At : Child → SeriesResponse
  | Child.respSet rs => rs.At
  | Child.errStream es => es.resp

def Child.Next : Child → Child × Bool
  | Child.respSet rs => let (rs', ok) := rs.Next; (Child.respSet rs', ok)
  | Child.errStream es => (Child.errStream es, false)

def Child.Err : Child → Option String
  | Child.respSet _ => none
  | Child.errStream es => es.err

/-- The heap slice.  Go nodes hold `*respSet` pointers occurring once each,
so holding the streams by value with write-back is equivalent. -/
abbrev ProxyResponseHeap := List Child

/-- `ProxyResponseHeap.Less`: non-series items sort before series items;
two series compare by labels; two non-series are unordered. -/
def respLess (a b : SeriesResponse) : Bool :=
  match a, b with
  | SeriesResponse.series la _, SeriesResponse.series lb _ =>
      decide (labelsCompare la lb = Ordering.lt)
  | SeriesResponse.warning, SeriesResponse.series _ _ => true
  | SeriesResponse.series _ _, SeriesResponse.warning => false
  | SeriesResponse.warning, SeriesResponse.warning => false

def heapLess (h : ProxyResponseHeap) (i j : Nat) : Bool :=
  respLess (h.getD i default).At (h.getD j default).At

/-- `ProxyResponseHeap.Swap`. -/
def heapSwap (h : ProxyResponseHeap) (i j : Nat) : ProxyResponseHeap :=
  let a := h.getD i default
  let b := h.getD j default
  (h.set i b).set j a

/-- `container/heap.down`: sift the node at `i` down within `h[0:n)`;
returns the heap and the final position.  The position strictly increases
and stays below `n`, so fuel `n + 1` is enough. -/
def heapDownGo (h : ProxyResponseHeap) (i n fuel : Nat) :
    ProxyResponseHeap × Nat :=
  match fuel with
  | 0 => (h, i)
  | Nat.succ f =>
    let j1 := 2 * i + 1
    if j1 < n then
      let j := if j1 + 1 < n ∧ heapLess h (j1 + 1) j1 then j1 + 1 else j1
      if heapLess h j i then
        heapDownGo (heapSwap h i j) j n f
      else (h, i)
    else (h, i)

/-- `container/heap.down` wrapper: also report whether the node moved. -/
def heapDown (h : ProxyResponseHeap) (i0 n : Nat) : ProxyResponseHeap × Bool :=
  let (h', i) := heapDownGo h i0 n (n + 1)
  (h', decide (i > i0))

/-- `container/heap.up`.  The position strictly decreases, so fuel `j + 1`
is enough. -/
def heapUpGo (h : ProxyResponseHeap) (j fuel : Nat) : ProxyResponseHeap :=
  match fuel with
  | 0 => h
  | Nat.succ f =>
    let i := (j - 1) / 2
    if i = j ∨ ¬ heapLess h j i then h
    else heapUpGo (heapSwap h i j) i f

/-- `container/heap.Init`: `down` at indices `k-1, …, 0`. -/
def heapInitGo (h : ProxyResponseHeap) (k : Nat) : ProxyResponseHeap :=
  match k with
  | 0 => h
  | Nat.succ k' => heapInitGo (heapDownGo h k' h.length (h.length + 1)).1 k'

/-- `container/heap.Fix` at index `i`. -/
def heapFixAt (h : ProxyResponseHeap) (i : Nat) : ProxyResponseHeap :=
  let (h', moved) := heapDown h i h.length
  if moved then h' else heapUpGo h' i (i + 1)

/-- `container/heap.Remove(h, 0)` followed by the slice-shrinking
`h.Pop`. -/
def heapRemoveTop (h : ProxyResponseHeap) : ProxyResponseHeap :=
  let n := h.length - 1
  if n ≠ 0 then
    let h1 := heapSwap h 0 n
    let (h2, moved) := heapDown h1 0 n
    let h3 := if moved then h2 else heapUpGo h2 0 1
    h3.take n
  else h.take n

/-- `NewProxyResponseHeap`: push every stream, then `heap.Init`. -/
def NewProxyResponseHeap (seriesSets : List Child) : ProxyResponseHeap :=
  heapInitGo seriesSets (seriesSets.length / 2)

/-- `ProxyResponseHeap.Next`: `!h.Empty()`; no mutation. -/
def heapNext (h : ProxyResponseHeap) : Bool :=
  decide (h.length ≠ 0)

/-- `ProxyResponseHeap.At`: read the minimum, advance its stream in place,
re-establish the heap (`Fix`) or drop the exhausted stream (`Remove`). -/
def heapAt (h : ProxyResponseHeap) : SeriesResponse × ProxyResponseHeap :=
  let minC := h.getD 0 default
  let atResp := minC.At
  let (minC', ok) := minC.Next
  let h1 := h.set 0 minC'
  if ok then (atResp, heapFixAt h1 0)
  else (atResp, heapRemoveTop h1)

/-- `ProxyResponseHeap.Err`: literally `return nil`. -/
def heapErr (_h : ProxyResponseHeap) : Option String := none

/-- The consumption loop `for h.Next() { out = append(out, h.At()) }`. -/
def heapRun (fuel : Nat) (h : ProxyResponseHeap) : List SeriesResponse :=
  match fuel with
  | 0 => []
  | Nat.succ f =>
    if heapNext h then
      let (r, h') := heapAt h
      r :: heapRun f h'
    else []

/-- Total number of un-consumed responses in the heap (fuel bound for the
dedup batching loop). -/
def heapRemaining (h : ProxyResponseHeap) : Nat :=
  (h.map (fun c =>
    match c with
    | Child.respSet rs => rs.responses.length - rs.i
    | Child.errStream _ => 1)).sum

/-- `dedupResponseHeap` state. -/
structure DedupResponseHeap where
  h : ProxyResponseHeap
  responses : List SeriesResponse
  previousResponse : Option SeriesResponse
  previousNext : Bool
deriving Repr, DecidableEq

/-- `NewDedupResponseHeap`. -/
def NewDedupResponseHeap (h : ProxyResponseHeap) : DedupResponseHeap :=
  { h := h, responses := [], previousResponse := none,
    previousNext := heapNext h }

/-- First occurrence of each content hash across the buffered responses, in
insertion order (`chunkDedupMap` keyed by `chk.Hash()`; Go map iteration
order is unspecified, insertion order is one admissible order and the facts
proved below are order-independent). -/
def firstOccByHash (cs : List AggrChunk) : List AggrChunk :=
  cs.foldl (fun acc c =>
    if acc.any (fun x => x.Hash = c.Hash) then acc else acc ++ [c]) []

/-- `dedupResponseHeap.At`, including the slip
`finalChunks := make([]storepb.AggrChunk, len(chunkDedupMap))` followed by
`append`, which leaves `len(chunkDedupMap)` zero-valued chunks in front of
the deduplicated ones.  The deferred `d.responses = d.responses[:0]` clears
the buffer after the result is built. -/
def dedupAt (d : DedupResponseHeap) :
    Option SeriesResponse × DedupResponseHeap :=
  let result :=
    if d.responses.length = 0 then none
    else if d.responses.length = 1 then some (d.responses.getD 0 default)
    else
      let uniq := firstOccByHash (d.responses.flatMap SeriesResponse.chunksOf)
      let finalChunks := List.replicate uniq.length (default : AggrChunk) ++ uniq
      some (SeriesResponse.series (d.responses.getD 0 default).labelsOf
        finalChunks)
  (result, { d with responses := [] })

/-- The batching loop inside `dedupResponseHeap.Next`.  The deferred write
of `previousNext` receives the last value of the loop's `nextHeap`
variable: `false` when the heap is exhausted, `true` when an item was
stashed into `previousResponse`. -/
def dedupLoop (fuel : Nat) (d : DedupResponseHeap) : DedupResponseHeap :=
  match fuel with
  | 0 => d
  | Nat.succ f =>
    let nextHeap := heapNext d.h
    if ¬ nextHeap then { d with previousNext := false }
    else
      let (resp, h') := heapAt d.h
      let d1 := { d with h := h' }
      match resp with
      | SeriesResponse.warning =>
          { d1 with previousResponse := some resp, previousNext := true }
      | SeriesResponse.series lbls _ =>
          let lastLbls := (d1.responses.getLastD default).labelsOf
          if labelsCompare lbls lastLbls = Ordering.eq then
            dedupLoop f { d1 with responses := d1.responses ++ [resp] }
          else
            { d1 with previousResponse := some resp, previousNext := true }

/-- `dedupResponseHeap.Next`.  On a non-series seed the function returns
true with the buffer holding just the seed, stashes the very same response
into `previousResponse`, and — because the loop variable `nextHeap` was
never assigned — the deferred write leaves `previousNext = false`. -/
def dedupNext (d : DedupResponseHeap) : Bool × DedupResponseHeap :=
  if ¬ d.previousNext then (decide (d.responses.length > 0), d)
  else
    let (resp, d1) :=
      match d.previousResponse with
      | some r => (r, { d with previousResponse := none })
      | none =>
        let (r, h') := heapAt d.h
        (r, { d with h := h' })
    let d2 := { d1 with responses := [resp] }
    match resp with
    | SeriesResponse.warning =>
        (true, { d2 with previousResponse := some resp,
                         previousNext := false })
    | SeriesResponse.series _ _ =>
        (true, dedupLoop (heapRemaining d2.h + 1) d2)

/-! ## Frame lemmas for the tournament tree -/

namespace ProxyTournamentTree

theorem setAux_streams (t : ProxyTournamentTree) (i : Nat)
    (v : Option TreeAuxNode) : (t.setAux i v).streams = t.streams := rfl

theorem setAux_nodes (t : ProxyTournamentTree) (i : Nat)
    (v : Option TreeAuxNode) : (t.setAux i v).nodes = t.nodes := rfl

theorem setAux_lastChanged (t : ProxyTournamentTree) (i : Nat)
    (v : Option TreeAuxNode) :
    (t.setAux i v).lastChangedNodeIndex = t.lastChangedNodeIndex := rfl

theorem setAux_length (t : ProxyTournamentTree) (i : Nat)
    (v : Option TreeAuxNode) :
    (t.setAux i v).auxiliaryNodes.length = t.auxiliaryNodes.length := by
  simp [setAux]

/-- Reading an aux slot other than the one just written. -/
theorem setAux_aux_ne (t : ProxyTournamentTree) (i j : Nat)
    (v : Option TreeAuxNode) (h : i ≠ j) :
    (t.setAux i v).aux j = t.aux j := by
  simp [setAux, aux, List.getD, List.getElem?_set_ne, h]

/-- Reading the aux slot just written (in range). -/
theorem setAux_aux_eq (t : ProxyTournamentTree) (i : Nat)
    (v : Option TreeAuxNode) (h : i < t.auxiliaryNodes.length) :
    (t.setAux i v).aux i = v := by
  simp [setAux, aux, List.getD, List.getElem?_set_eq_of_lt _ h]

/-- `leafPairWinner` only reads `nodes` and `streams`, so it is unaffected
by aux writes. -/
theorem leafPairWinner_setAux (t : ProxyTournamentTree) (i : Nat)
    (v : Option TreeAuxNode) (l : Nat) :
    (t.setAux i v).leafPairWinner l = t.leafPairWinner l := rfl

theorem initialBottomGo_frame (f : Nat) :
    ∀ (t : ProxyTournamentTree) (l : Nat),
      (t.initialBottomGo l f).streams = t.streams ∧
      (t.initialBottomGo l f).nodes = t.nodes ∧
      (t.initialBottomGo l f).lastChangedNodeIndex = t.lastChangedNodeIndex ∧
      (t.initialBottomGo l f).auxiliaryNodes.length =
        t.auxiliaryNodes.length := by
  induction f with
  | zero => exact fun t l => ⟨rfl, rfl, rfl, rfl⟩
  | succ f ih =>
    intro t l
    rw [initialBottomGo]
    split
    · rcases ih (t.setAux (l / 2) (some (t.leafPairWinner l))) (l + 2) with
        ⟨h1, h2, h3, h4⟩
      exact ⟨h1, h2, h3, h4.trans (setAux_length ..)⟩
    · exact ⟨rfl, rfl, rfl, rfl⟩

theorem upperWriteOne_streams (t : ProxyTournamentTree) (frm l p : Nat) :
    (t.upperWriteOne frm l p).streams = t.streams := rfl

theorem upperWriteOne_nodes (t : ProxyTournamentTree) (frm l p : Nat) :
    (t.upperWriteOne frm l p).nodes = t.nodes := rfl

theorem upperWriteOne_lastChanged (t : ProxyTournamentTree) (frm l p : Nat) :
    (t.upperWriteOne frm l p).lastChangedNodeIndex =
      t.lastChangedNodeIndex := rfl

theorem upperWriteOne_length (t : ProxyTournamentTree) (frm l p : Nat) :
    (t.upperWriteOne frm l p).auxiliaryNodes.length =
      t.auxiliaryNodes.length := by
  simp [upperWriteOne, setAux]

theorem upperLevelGo_frame (f : Nat) :
    ∀ (t : ProxyTournamentTree) (frm l u p : Nat),
      (t.upperLevelGo frm l u p f).streams = t.streams ∧
      (t.upperLevelGo frm l u p f).nodes = t.nodes ∧
      (t.upperLevelGo frm l u p f).lastChangedNodeIndex =
        t.lastChangedNodeIndex ∧
      (t.upperLevelGo frm l u p f).auxiliaryNodes.length =
        t.auxiliaryNodes.length := by
  induction f with
  | zero => exact fun t frm l u p => ⟨rfl, rfl, rfl, rfl⟩
  | succ f ih =>
    intro t frm l u p
    rw [upperLevelGo]
    split
    · rcases ih (t.upperWriteOne frm l p) frm (l + 1) u (p + 2) with
        ⟨h1, h2, h3, h4⟩
      exact ⟨h1, h2, h3, h4.trans (upperWriteOne_length ..)⟩
    · exact ⟨rfl, rfl, rfl, rfl⟩

theorem upperLoopGo_frame (f : Nat) :
    ∀ (t : ProxyTournamentTree) (ll fp nil : Nat),
      (t.upperLoopGo ll fp nil f).streams = t.streams ∧
      (t.upperLoopGo ll fp nil f).nodes = t.nodes ∧
      (t.upperLoopGo ll fp nil f).lastChangedNodeIndex =
        t.lastChangedNodeIndex ∧
      (t.upperLoopGo ll fp nil f).auxiliaryNodes.length =
        t.auxiliaryNodes.length := by
  induction f with
  | zero => exact fun t ll fp nil => ⟨rfl, rfl, rfl, rfl⟩
  | succ f ih =>
    intro t ll fp nil
    rw [upperLoopGo]
    split
    · rcases ih (t.upperLevelGo (ll + 1) (ll + 1) (ll + nil) fp (ll + nil + 2))
        (ll + nil) (ll + 1) (nextLevelNodeCount nil) with ⟨h1, h2, h3, h4⟩
      rcases upperLevelGo_frame (ll + nil + 2) t (ll + 1) (ll + 1) (ll + nil)
        fp with ⟨g1, g2, g3, g4⟩
      exact ⟨h1.trans g1, h2.trans g2, h3.trans g3, h4.trans g4⟩
    · exact ⟨rfl, rfl, rfl, rfl⟩

theorem initialFix_frame (t : ProxyTournamentTree) :
    (t.initialFix).streams = t.streams ∧
    (t.initialFix).nodes = t.nodes ∧
    (t.initialFix).lastChangedNodeIndex = t.lastChangedNodeIndex ∧
    (t.initialFix).auxiliaryNodes.length = t.auxiliaryNodes.length := by
  unfold initialFix
  rcases initialBottomGo_frame (t.nodes.length + 1) t 0 with ⟨b1, b2, b3, b4⟩
  dsimp only
  split
  · exact ⟨b1, b2, b3, b4⟩
  · split
    · rcases upperLoopGo_frame _ (t.initialBottomGo 0 (t.nodes.length + 1))
        _ _ _ with ⟨h1, h2, h3, h4⟩
      exact ⟨h1.trans b1, h2.trans b2, h3.trans b3, h4.trans b4⟩
    · exact ⟨b1, b2, b3, b4⟩

end ProxyTournamentTree

theorem newTree_lastChanged (inputs : List (List LabelSet)) :
    (NewProxyTournamentTree inputs).lastChangedNodeIndex = -1 := by
  unfold NewProxyTournamentTree
  exact (ProxyTournamentTree.initialFix_frame _).2.2.1

namespace ProxyTournamentTree

/-- Slots strictly below the bottom-loop cursor are never touched again
(the loop cursor `l` stays even and writes slot `l / 2`). -/
theorem initialBottomGo_aux_preserved (f : Nat) :
    ∀ (t : ProxyTournamentTree) (l i : Nat), l % 2 = 0 → 2 * i < l →
      (t.initialBottomGo l f).aux i = t.aux i := by
  induction f with
  | zero => intros; rfl
  | succ f ih =>
    intro t l i hpar hi
    rw [initialBottomGo]
    split
    · rw [ih _ (l + 2) i (by omega) (by omega)]
      exact setAux_aux_ne t (l / 2) i _ (by omega)
    · rfl

/-- The bottom loop writes `aux[i] = leafPairWinner (2*i)` for every pair
index `i` it reaches. -/
theorem initialBottomGo_aux_written (f : Nat) :
    ∀ (t : ProxyTournamentTree) (l i : Nat),
      l % 2 = 0 → l ≤ 2 * i → 2 * i < t.nodes.length →
      t.nodes.length ≤ l + 2 * f → i < t.auxiliaryNodes.length →
      (t.initialBottomGo l f).aux i = some (t.leafPairWinner (2 * i)) := by
  induction f with
  | zero => intro t l i _ h2 h3 h4 _; omega
  | succ f ih =>
    intro t l i hpar h2 h3 h4 h5
    rw [initialBottomGo]
    rw [if_pos (by omega : l < t.nodes.length)]
    by_cases heq : l = 2 * i
    · rw [initialBottomGo_aux_preserved f _ (l + 2) i (by omega) (by omega)]
      have hdiv : l / 2 = i := by omega
      rw [hdiv, setAux_aux_eq _ _ _ h5, heq]
    · have hlen : (t.setAux (l / 2) (some (t.leafPairWinner l))).auxiliaryNodes.length
          = t.auxiliaryNodes.length := setAux_length ..
      have hnodes : (t.setAux (l / 2) (some (t.leafPairWinner l))).nodes.length
          = t.nodes.length := rfl
      have := ih (t.setAux (l / 2) (some (t.leafPairWinner l))) (l + 2) i
        (by omega) (by omega) (by rw [hnodes]; exact h3) (by rw [hnodes]; omega)
        (by rw [hlen]; exact h5)
      rw [this, leafPairWinner_setAux]

/-- The level-filling inner loop of `initialFix` writes only at indices
`≥ frm`, so slots below `frm` are preserved. -/
theorem upperWriteOne_aux_ne (t : ProxyTournamentTree) (frm l p i : Nat)
    (h : l ≠ i) : (t.upperWriteOne frm l p).aux i = t.aux i := by
  unfold upperWriteOne
  exact setAux_aux_ne t l i _ h

theorem upperLevelGo_aux_preserved (f : Nat) :
    ∀ (t : ProxyTournamentTree) (frm l u p i : Nat), i < frm → frm ≤ l →
      (t.upperLevelGo frm l u p f).aux i = t.aux i := by
  induction f with
  | zero => intros; rfl
  | succ f ih =>
    intro t frm l u p i hi hfl
    rw [upperLevelGo]
    split
    · rw [ih _ frm (l + 1) u (p + 2) i hi (by omega)]
      exact upperWriteOne_aux_ne t frm l p i (by omega)
    · rfl

/-- The upper loop of `initialFix` writes only at indices above the last
loser index, so slots at or below it are preserved. -/
theorem upperLoopGo_aux_preserved (f : Nat) :
    ∀ (t : ProxyTournamentTree) (ll fp nil i : Nat), i ≤ ll →
      (t.upperLoopGo ll fp nil f).aux i = t.aux i := by
  induction f with
  | zero => intros; rfl
  | succ f ih =>
    intro t ll fp nil i hi
    rw [upperLoopGo]
    split
    · rw [ih _ (ll + nil) (ll + 1) (nextLevelNodeCount nil) i (by omega)]
      exact upperLevelGo_aux_preserved _ t (ll + 1) (ll + 1) (ll + nil) fp i
        (by omega) (by omega)
    · rfl

/-- Frame property of the winner-chain walk: a successful walk leaves
`streams`, `nodes` and `lastChangedNodeIndex` untouched, only writes nil
into aux slots, and ends by vacating an aux node whose leaf back index it
reports. -/
theorem popWalk_frame (fuel : Nat) :
    ∀ (t : ProxyTournamentTree) (cur : Nat) (t'' : ProxyTournamentTree)
      (leafIdx : Nat), cur < t.auxiliaryNodes.length →
      popWalk t cur fuel = some (t'', leafIdx) →
      t''.streams = t.streams ∧ t''.nodes = t.nodes ∧
      (∀ j, t''.aux j = t.aux j ∨ t''.aux j = none) ∧
      (∃ j n, t.aux j = some n ∧ n.previousAuxIndex = -1 ∧
        n.previousNodeIndex.toNat = leafIdx ∧ t''.aux j = none) := by
  induction fuel with
  | zero =>
    intro t cur t'' leafIdx hcur h
    simp [popWalk] at h
  | succ f ih =>
    intro t cur t'' leafIdx hcur h
    rw [popWalk] at h
    cases hc : t.aux cur with
    | none => rw [hc] at h; simp at h
    | some curN =>
      rw [hc] at h
      dsimp only at h
      by_cases hpa : curN.previousAuxIndex ≠ -1
      · rw [if_pos hpa] at h
        by_cases hrange : 0 ≤ curN.previousAuxIndex ∧
            curN.previousAuxIndex.toNat < t.auxiliaryNodes.length
        · rw [if_pos hrange] at h
          have hcur' : curN.previousAuxIndex.toNat <
              (t.setAux cur none).auxiliaryNodes.length := by
            rw [setAux_length]; exact hrange.2
          rcases ih (t.setAux cur none) curN.previousAuxIndex.toNat t''
              leafIdx hcur' h with ⟨h1, h2, h3, j, n, hj1, hj2, hj3, hj4⟩
          refine ⟨h1.trans (setAux_streams ..), h2.trans (setAux_nodes ..),
            ?_, ?_⟩
          · intro j'
            rcases h3 j' with hj' | hj'
            · by_cases hj'eq : cur = j'
              · subst hj'eq
                rw [setAux_aux_eq _ _ _ hcur] at hj'
                right; exact hj'
              · left; rw [hj', setAux_aux_ne _ _ _ _ hj'eq]
            · right; exact hj'
          · refine ⟨j, n, ?_, hj2, hj3, hj4⟩
            by_cases hjc : cur = j
            · subst hjc
              rw [setAux_aux_eq _ _ _ hcur] at hj1
              cases hj1
            · rw [setAux_aux_ne _ _ _ _ hjc] at hj1; exact hj1
        · rw [if_neg hrange] at h; cases h
      · rw [if_neg hpa] at h
        push_neg at hpa
        by_cases hpn : curN.previousNodeIndex ≠ -1
        · rw [if_pos hpn] at h
          simp only [Option.some.injEq, Prod.mk.injEq] at h
          obtain ⟨ht'', hleaf⟩ := h
          subst ht''
          refine ⟨setAux_streams .., setAux_nodes .., ?_, cur, curN, hc, hpa,
            hleaf, setAux_aux_eq _ _ _ hcur⟩
          intro j'
          by_cases hj'eq : cur = j'
          · subst hj'eq; right; exact setAux_aux_eq _ _ _ hcur
          · left; exact setAux_aux_ne _ _ _ _ hj'eq
        · rw [if_neg hpn] at h; cases h

end ProxyTournamentTree

/-- The allocation loop reserves at least one aux node per bottom pair. -/
theorem half_le_auxNodesCount (n : Nat) (h : 2 ≤ n) :
    n / 2 ≤ auxNodesCount n := by
  unfold auxNodesCount
  cases n with
  | zero => omega
  | succ m =>
    rw [auxNodesCountGo]
    rw [if_pos (by omega)]
    split <;> omega

theorem newTreeNodes_length (n : Nat) :
    (newTreeNodes n).length = if n % 2 ≠ 0 then n + 1 else n := by
  unfold newTreeNodes
  dsimp only
  split <;> simp_all

theorem newTreeNodes_even (n : Nat) : (newTreeNodes n).length % 2 = 0 := by
  rw [newTreeNodes_length]; split <;> omega

theorem newTreeNodes_getD (n k : Nat) (h : k < n) :
    (newTreeNodes n).getD k none = some k := by
  unfold newTreeNodes
  dsimp only
  split
  · rw [List.getD_eq_getElem?_getD, List.getElem?_append_left (by simpa using h),
      List.getElem?_map, List.getElem?_range h]
    rfl
  · rw [List.getD_eq_getElem?_getD, List.getElem?_map, List.getElem?_range h]
    rfl

/-- The padding slot appended for an odd stream count holds `infinity`. -/
theorem newTreeNodes_getD_pad (n : Nat) (h : n % 2 = 1) :
    (newTreeNodes n).getD n none = none := by
  unfold newTreeNodes
  dsimp only
  rw [if_pos (by simpa using by omega)]
  rw [List.getD_eq_getElem?_getD,
    List.getElem?_append_right (by simp), List.length_map,
    List.length_range]
  simp

theorem newTreeBase_streams (inputs : List (List LabelSet)) :
    (newTreeBase inputs).streams = inputs.map (fun s => ⟨s, 0⟩) := rfl

theorem newTreeBase_nodes (inputs : List (List LabelSet)) :
    (newTreeBase inputs).nodes = newTreeNodes inputs.length := by
  unfold newTreeBase
  dsimp only
  rw [List.length_map]

theorem newTreeBase_auxLen (inputs : List (List LabelSet)) :
    (newTreeBase inputs).auxiliaryNodes.length =
      auxNodesCount (newTreeNodes inputs.length).length := by
  unfold newTreeBase
  dsimp only
  rw [List.length_replicate, List.length_map]

theorem newTreeBase_leaf (inputs : List (List LabelSet)) (k : Nat)
    (h : k < inputs.length) : (newTreeBase inputs).leaf k = some k := by
  unfold ProxyTournamentTree.leaf
  rw [newTreeBase_nodes]
  exact newTreeNodes_getD _ _ h

theorem newTreeBase_leaf_pad (inputs : List (List LabelSet))
    (h : inputs.length % 2 = 1) :
    (newTreeBase inputs).leaf inputs.length = none := by
  unfold ProxyTournamentTree.leaf
  rw [newTreeBase_nodes]
  exact newTreeNodes_getD_pad _ h

theorem newTreeBase_refAt (inputs : List (List LabelSet)) (k : Nat)
    (h : k < inputs.length) :
    (newTreeBase inputs).refAt k = (inputs.getD k []).getD 0 [] := by
  unfold ProxyTournamentTree.refAt
  rw [newTreeBase_streams]
  simp [List.getD_eq_getElem?_getD, List.getElem?_map,
    List.getElem?_eq_getElem h, MockStream.At]

namespace ProxyTournamentTree

/-- The bottom-level write for a pair of live leaves whose comparison is
not `< 0`: the right leaf wins. -/
theorem leafPairWinner_right (t : ProxyTournamentTree) (l kl kr : Nat)
    (hl : t.leaf l = some kl) (hr : t.leaf (l + 1) = some kr)
    (hcmp : ¬ labelsCompare (t.refAt kl) (t.refAt kr) = Ordering.lt) :
    t.leafPairWinner l = ⟨some kr, -1, ((l + 1 : Nat) : Int)⟩ := by
  unfold leafPairWinner
  dsimp only
  rw [hl, hr]
  simp [hcmp]

/-- The bottom-level write when the right slot holds `infinity` (the
padding case): the left leaf wins under its own index. -/
theorem leafPairWinner_left_of_pad (t : ProxyTournamentTree) (l kl : Nat)
    (hl : t.leaf l = some kl) (hr : t.leaf (l + 1) = none) :
    t.leafPairWinner l = ⟨some kl, -1, (l : Int)⟩ := by
  unfold leafPairWinner
  dsimp only
  rw [hl, hr]

/-- After `initialFix`, a bottom slot holds exactly the pair winner of the
leaves it covers (the upper loops never write below the bottom level). -/
theorem initialFix_aux_bottom (t : ProxyTournamentTree) (i : Nat)
    (hpar : t.nodes.length % 2 = 0)
    (hi : 2 * i + 1 < t.nodes.length)
    (hair : i < t.auxiliaryNodes.length) :
    (t.initialFix).aux i = some (t.leafPairWinner (2 * i)) := by
  unfold initialFix
  dsimp only
  have hbot := initialBottomGo_aux_written (t.nodes.length + 1) t 0 i
    (by omega) (by omega) (by omega) (by omega) hair
  rcases initialBottomGo_frame (t.nodes.length + 1) t 0 with ⟨_, b2, _, _⟩
  split
  · exact hbot
  · split
    · rw [upperLoopGo_aux_preserved _ _ _ _ _ i (by rw [b2]; omega)]
      exact hbot
    · exact hbot

end ProxyTournamentTree

/-! ## Claim theorems -/

/-- C1 (code bug), evaluation at the failing input: on the size-2 input of
the repository's own `TestTournamentTreePop` (streams `[{test=baa}]` and
`[{test=bab}]`) the Pop/Fix consumption loop emits a single item — not
Σn_i = 2 non-decreasing items followed by a terminal Pop as the claim and
the test demand — because the defective `Fix` never compares the advanced
leaf with its sibling (`rightIdx >= from` holds vacuously at the leaf
level) and `{test=bab}` is lost. -/
theorem C1_run_at_failing_input :
    treeRun 100 (NewProxyTournamentTree
        [[[("test", "baa")]], [[("test", "bab")]]]) = [[("test", "baa")]] ∧
    (treeRun 100 (NewProxyTournamentTree
        [[[("test", "baa")]], [[("test", "bab")]]])).length = 1 := by
  decide

/-- C2 (code bug), evaluation at the failing input: a buffered run of two
responses sharing LabelSet `{t=a}` with distinct chunk hashes 1 and 2.  The
claim (and the code's own doc comment) demand exactly one chunk per
distinct hash; `At` instead returns four chunks, the first two being
zero-valued chunks that occur in no buffered response, because
`make([]storepb.AggrChunk, len(chunkDedupMap))` already fills the slice
with `len` zero values before the deduplicated chunks are appended. -/
theorem C2_dedup_at_failing_input :
    (dedupAt (dedupNext (NewDedupResponseHeap (NewProxyResponseHeap
        [Child.respSet ⟨[SeriesResponse.series [("t", "a")] [⟨1⟩]], 0⟩,
         Child.respSet ⟨[SeriesResponse.series [("t", "a")] [⟨2⟩]], 0⟩]))).2).1 =
      some (SeriesResponse.series [("t", "a")] [⟨0⟩, ⟨0⟩, ⟨1⟩, ⟨2⟩]) := by
  decide

/-- C3 counterexample: a heap over a child stream that reports the error
"boom".  The merger's `Err()` still returns nil — not the first child error
— and `Next()` returns true, not false, so the claim as stated is false. -/
theorem C3_counterexample :
    Child.Err (Child.errStream ⟨SeriesResponse.warning, some "boom"⟩) =
      some "boom" ∧
    heapErr (NewProxyResponseHeap
      [Child.errStream ⟨SeriesResponse.warning, some "boom"⟩]) = none ∧
    heapNext (NewProxyResponseHeap
      [Child.errStream ⟨SeriesResponse.warning, some "boom"⟩]) = true :=
  ⟨rfl, rfl, by decide⟩

/-- C3 amended: the merger's `error()` always returns null regardless of
child errors, its `advance()` returns false exactly when the heap is empty
(child errors do not make it return false), and the repository's concrete
child stream type `respSet` never reports an error. -/
theorem C3_err_always_nil (h : ProxyResponseHeap) (rs : RespSet) :
    heapErr h = none ∧ (heapNext h = false ↔ h.length = 0) ∧
    Child.Err (Child.respSet rs) = none := by
  refine ⟨rfl, ?_, rfl⟩
  simp [heapNext]

/-- C4 counterexample: two leaves whose current LabelSets `{t=x}` compare
equal.  The constructed tree records the RIGHT leaf (index 1) as the winner
of pair 0 — `Compare < 0` fails on a tie, so the `else` branch picks the
right stream — refuting the claim that the left leaf (index 0) wins. -/
theorem C4_counterexample :
    labelsCompare [("t", "x")] [("t", "x")] = Ordering.eq ∧
    (NewProxyTournamentTree [[[("t", "x")]], [[("t", "x")]]]).aux 0 =
      some ⟨some 1, -1, 1⟩ := by
  decide

/-- C4 amended: during construction, for every adjacent pair of live
leaves `(2i, 2i+1)` whose current LabelSets compare equal, the RIGHT leaf
(index `2i+1`) is recorded as the winner in `aux[i]` — the code's
`Compare < 0` test fails on a tie, so the `else` branch stores the right
stream — and when the right slot of the last pair is the ∞ padding
sentinel (odd stream count), the left leaf wins and is recorded under its
own index.  (The "both leaves ∞" case is unreachable during construction
from live streams: at most one padding sentinel is ever appended.) -/
theorem C4_amended (inputs : List (List LabelSet)) (i : Nat) :
    (2 * i + 1 < inputs.length →
      labelsCompare ((inputs.getD (2 * i) []).getD 0 [])
          ((inputs.getD (2 * i + 1) []).getD 0 []) = Ordering.eq →
      (NewProxyTournamentTree inputs).aux i =
        some ⟨some (2 * i + 1), -1, ((2 * i + 1 : Nat) : Int)⟩) ∧
    (inputs.length % 2 = 1 → 2 * i + 1 = inputs.length →
      (NewProxyTournamentTree inputs).aux i =
        some ⟨some (2 * i), -1, ((2 * i : Nat) : Int)⟩) := by
  have hpar : (newTreeBase inputs).nodes.length % 2 = 0 := by
    rw [newTreeBase_nodes]; exact newTreeNodes_even _
  have hnlen : (newTreeBase inputs).nodes.length =
      if inputs.length % 2 ≠ 0 then inputs.length + 1 else inputs.length := by
    rw [newTreeBase_nodes, newTreeNodes_length]
  constructor
  · intro hlt heq
    have hi : 2 * i + 1 < (newTreeBase inputs).nodes.length := by
      rw [hnlen]; split <;> omega
    have hair : i < (newTreeBase inputs).auxiliaryNodes.length := by
      rw [newTreeBase_auxLen]
      have h2 : 2 ≤ (newTreeNodes inputs.length).length := by
        rw [newTreeNodes_length]; split <;> omega
      have hhalf := half_le_auxNodesCount _ h2
      have hlen2 : 2 * i + 1 < (newTreeNodes inputs.length).length := by
        rw [newTreeNodes_length]; split <;> omega
      omega
    unfold NewProxyTournamentTree
    rw [ProxyTournamentTree.initialFix_aux_bottom _ i hpar hi hair]
    rw [ProxyTournamentTree.leafPairWinner_right _ (2 * i) (2 * i) (2 * i + 1)
      (newTreeBase_leaf _ _ (by omega)) (newTreeBase_leaf _ _ hlt)
      (by rw [newTreeBase_refAt _ _ (by omega), newTreeBase_refAt _ _ hlt,
            heq]
          simp)]
  · intro hodd hlast
    have hi : 2 * i + 1 < (newTreeBase inputs).nodes.length := by
      rw [hnlen]; split <;> omega
    have hair : i < (newTreeBase inputs).auxiliaryNodes.length := by
      rw [newTreeBase_auxLen]
      have h2 : 2 ≤ (newTreeNodes inputs.length).length := by
        rw [newTreeNodes_length]; split <;> omega
      have hhalf := half_le_auxNodesCount _ h2
      have hlen2 : 2 * i + 1 < (newTreeNodes inputs.length).length := by
        rw [newTreeNodes_length]; split <;> omega
      omega
    unfold NewProxyTournamentTree
    rw [ProxyTournamentTree.initialFix_aux_bottom _ i hpar hi hair]
    rw [ProxyTournamentTree.leafPairWinner_left_of_pad _ (2 * i) (2 * i)
      (newTreeBase_leaf _ _ (by omega))
      (by rw [hlast]; exact newTreeBase_leaf_pad _ hodd)]

/-- Witness for C4 amended on three streams `[{t=x}], [{t=x}], [{t=y}]`:
pair 0 is an exact tie (the right leaf, index 1, is recorded) and pair 1
pairs leaf 2 with the ∞ padding (the left leaf, index 2, is recorded). -/
theorem C4_amended_witness :
    (2 * 0 + 1 < ([[[("t", "x")]], [[("t", "x")]], [[("t", "y")]]] :
        List (List LabelSet)).length ∧
      (NewProxyTournamentTree
          [[[("t", "x")]], [[("t", "x")]], [[("t", "y")]]]).aux 0 =
        some ⟨some 1, -1, 1⟩) ∧
    ((NewProxyTournamentTree
          [[[("t", "x")]], [[("t", "x")]], [[("t", "y")]]]).aux 1 =
        some ⟨some 2, -1, 2⟩) :=
  ⟨⟨by decide,
    (C4_amended [[[("t", "x")]], [[("t", "x")]], [[("t", "y")]]] 0).1
      (by decide) (by decide)⟩,
   (C4_amended [[[("t", "x")]], [[("t", "x")]], [[("t", "y")]]] 1).2
      (by decide) (by decide)⟩

/-- C5 (code bug), evaluation at the failing input: two singleton streams
`{l=aaa}`, `{l=bbb}`.  After one Pop and the following Fix, the final aux
slot holds the ∞ sentinel even though leaf 1 is still live with current
LabelSet `{l=bbb}` — the minimum over live leaves — violating the claimed
invariant that `aux[|aux|-1]` holds the overall winner between `Fix` and
the next `Pop`.  (The `|aux| = Σ⌈n/2ᵏ⌉` allocation part is exactly what
`auxNodesCount` computes; it is the invariant part that fails.) -/
theorem C5_root_after_fix_at_failing_input :
    ((NewProxyTournamentTree [[[("l", "aaa")]], [[("l", "bbb")]]]).Pop.bind
        (fun p => p.2.Fix)).map
      (fun t => (t.aux (t.auxiliaryNodes.length - 1), t.leaf 1, t.refAt 1)) =
      some (some ⟨none, -1, 0⟩, some 1, [("l", "bbb")]) := by
  decide

/-- C6 (code bug), evaluation at the failing input: upstream holds a
non-series item followed by the series `{t=a}`.  The seeding `advance()`
does return true with the buffer holding only the non-series item (first
half of the claim), but the next `advance()` returns false — the loop
variable `nextHeap` is never set on the non-series path, so the deferred
write leaves `previousNext = false` — and the remaining series item is
never emitted, refuting the second half. -/
theorem C6_nonseries_seed_at_failing_input :
    (dedupNext (NewDedupResponseHeap (NewProxyResponseHeap
        [Child.respSet ⟨[SeriesResponse.warning,
          SeriesResponse.series [("t", "a")] [⟨5⟩]], 0⟩]))).1 = true ∧
    (dedupNext (NewDedupResponseHeap (NewProxyResponseHeap
        [Child.respSet ⟨[SeriesResponse.warning,
          SeriesResponse.series [("t", "a")] [⟨5⟩]], 0⟩]))).2.responses =
      [SeriesResponse.warning] ∧
    (dedupAt (dedupNext (NewDedupResponseHeap (NewProxyResponseHeap
        [Child.respSet ⟨[SeriesResponse.warning,
          SeriesResponse.series [("t", "a")] [⟨5⟩]], 0⟩]))).2).1 =
      some SeriesResponse.warning ∧
    (dedupNext (dedupAt (dedupNext (NewDedupResponseHeap (NewProxyResponseHeap
        [Child.respSet ⟨[SeriesResponse.warning,
          SeriesResponse.series [("t", "a")] [⟨5⟩]], 0⟩]))).2).2).1 =
      false := by
  decide

/-- C7: a merger state whose advance already returns false is stable.  An
empty heap keeps returning `Next() = false` with a nil error, and a
tournament tree whose root aux slot is nil or holds the ∞ sentinel keeps
returning `Pop() = nil` with the state left completely unchanged, so every
subsequent call sees the same terminal answer and the same (nil) error. -/
theorem C7_termination_idempotent (h : ProxyResponseHeap)
    (t : ProxyTournamentTree) (hh : h.length = 0)
    (hlen : ¬ t.auxiliaryNodes.length = 0)
    (ht : t.auxSS (t.auxiliaryNodes.length - 1) = none) :
    heapNext h = false ∧ heapErr h = none ∧ t.Pop = some (none, t) := by
  refine ⟨by simp [heapNext, hh], rfl, ?_⟩
  unfold ProxyTournamentTree.Pop
  rw [if_neg hlen]
  cases haux : t.aux (t.auxiliaryNodes.length - 1) with
  | none => simp [haux]
  | some n =>
    have hss : n.ss = none := by
      unfold ProxyTournamentTree.auxSS at ht
      rw [haux] at ht
      exact ht
    simp [haux, hss]

/-- Witness for C7: the empty heap, and the concrete tree state reached
from `NewProxyTournamentTree [[{l=aaa}]], [[{l=bbb}]]]` after one Pop and
one Fix (its root holds the ∞ sentinel, cf.
`C5_root_after_fix_at_failing_input`). -/
theorem C7_termination_idempotent_witness :
    heapNext ([] : ProxyResponseHeap) = false ∧
    heapErr ([] : ProxyResponseHeap) = none ∧
    ProxyTournamentTree.Pop
        ⟨[⟨[[("l", "aaa")]], 1⟩, ⟨[[("l", "bbb")]], 0⟩], [none, some 1],
          [some ⟨none, -1, 0⟩], 0⟩ =
      some (none,
        ⟨[⟨[[("l", "aaa")]], 1⟩, ⟨[[("l", "bbb")]], 0⟩], [none, some 1],
          [some ⟨none, -1, 0⟩], 0⟩) :=
  C7_termination_idempotent _ _ rfl (by decide) (by decide)

/-- C8: calling `Fix` on a freshly constructed tree — before any `Pop`, so
`lastChangedNodeIndex` is still `-1` — is fatal: the contract-violation
panic `"BUG: please call Fix() only after Pop()"` fires before any state is
touched, modelled by `Fix` returning `none`. -/
theorem C8_fix_before_pop_is_fatal (inputs : List (List LabelSet)) :
    (NewProxyTournamentTree inputs).lastChangedNodeIndex = -1 ∧
    (NewProxyTournamentTree inputs).Fix = none := by
  refine ⟨newTree_lastChanged inputs, ?_⟩
  unfold ProxyTournamentTree.Fix
  rw [newTree_lastChanged inputs]
  simp

/-- C9 (code bug), evaluation at the failing input: streams
`[{m=x}, {m=z}]` and `[{m=y}]`.  The heap merger emits `x, y, z` (three
items) while the tournament merger emits `x, z` (two items, `{m=y}` lost to
the `Fix` defect); reordering within adjacent-equal-LabelSet runs preserves
length, so the two outputs are not equivalent and the claim fails. -/
theorem C9_mergers_disagree_at_failing_input :
    (heapRun 100 (NewProxyResponseHeap
        [Child.respSet ⟨[SeriesResponse.series [("m", "x")] [],
                         SeriesResponse.series [("m", "z")] []], 0⟩,
         Child.respSet ⟨[SeriesResponse.series [("m", "y")] []], 0⟩])).map
      SeriesResponse.labelsOf = [[("m", "x")], [("m", "y")], [("m", "z")]] ∧
    treeRun 100 (NewProxyTournamentTree
        [[[("m", "x")], [("m", "z")]], [[("m", "y")]]]) =
      [[("m", "x")], [("m", "z")]] := by
  decide

/-- C10: frame property of a successful (non-terminal) `Pop`.  The leaf
streams are neither advanced nor replaced — `streams` and `nodes` are
returned untouched, so no `Next` effect can have happened — the only aux
mutations are writes of nil (along the winner chain the walk follows), and
`lastChangedNodeIndex` is set to the leaf back index recorded in the
vacated chain-end aux node; advancing that leaf is left to the following
`Fix`.  The hypothesis is that `Pop` succeeded in popping a stream, which
is exactly the non-terminal case. -/
theorem C10_pop_frame (t : ProxyTournamentTree) (r : Nat)
    (t' : ProxyTournamentTree) (hp : t.Pop = some (some r, t')) :
    t'.streams = t.streams ∧ t'.nodes = t.nodes ∧
    (∀ j, t'.aux j = t.aux j ∨ t'.aux j = none) ∧
    (∃ j n, t.aux j = some n ∧ n.previousAuxIndex = -1 ∧
      ((n.previousNodeIndex.toNat : Nat) : Int) = t'.lastChangedNodeIndex ∧
      t'.aux j = none) := by
  unfold ProxyTournamentTree.Pop at hp
  by_cases hlen : t.auxiliaryNodes.length = 0
  · rw [if_pos hlen] at hp; cases hp
  · rw [if_neg hlen] at hp
    cases hroot : t.aux (t.auxiliaryNodes.length - 1) with
    | none => rw [hroot] at hp; simp at hp
    | some ln =>
      rw [hroot] at hp
      dsimp only at hp
      by_cases hss : ln.ss = none
      · rw [if_pos hss] at hp; simp at hp
      · rw [if_neg hss] at hp
        cases hpw : ProxyTournamentTree.popWalk t
            (t.auxiliaryNodes.length - 1) (t.auxiliaryNodes.length + 1) with
        | none => rw [hpw] at hp; cases hp
        | some pr =>
          obtain ⟨t'', leafIdx⟩ := pr
          rw [hpw] at hp
          dsimp only at hp
          simp only [Option.some.injEq, Prod.mk.injEq] at hp
          obtain ⟨-, ht'⟩ := hp
          rcases ProxyTournamentTree.popWalk_frame _ t _ t'' leafIdx
              (by omega) hpw with ⟨h1, h2, h3, j, n, hj1, hj2, hj3, hj4⟩
          subst ht'
          refine ⟨h1, h2, h3, j, n, hj1, hj2, ?_, hj4⟩
          rw [hj3]

/-- Witness for C10: the tree built from `[[{l=aaa}]], [[{l=bbb}]]]` pops
stream 0; the resulting state differs only in the vacated root aux slot
and `lastChangedNodeIndex = 0`. -/
theorem C10_pop_frame_witness :
    (⟨[⟨[[("l", "aaa")]], 0⟩, ⟨[[("l", "bbb")]], 0⟩], [some 0, some 1],
        [none], 0⟩ : ProxyTournamentTree).streams =
      (NewProxyTournamentTree [[[("l", "aaa")]], [[("l", "bbb")]]]).streams ∧
    (⟨[⟨[[("l", "aaa")]], 0⟩, ⟨[[("l", "bbb")]], 0⟩], [some 0, some 1],
        [none], 0⟩ : ProxyTournamentTree).nodes =
      (NewProxyTournamentTree [[[("l", "aaa")]], [[("l", "bbb")]]]).nodes ∧
    (∀ j, (⟨[⟨[[("l", "aaa")]], 0⟩, ⟨[[("l", "bbb")]], 0⟩], [some 0, some 1],
        [none], 0⟩ : ProxyTournamentTree).aux j =
          (NewProxyTournamentTree [[[("l", "aaa")]], [[("l", "bbb")]]]).aux j ∨
        (⟨[⟨[[("l", "aaa")]], 0⟩, ⟨[[("l", "bbb")]], 0⟩], [some 0, some 1],
          [none], 0⟩ : ProxyTournamentTree).aux j = none) ∧
    (∃ j n, (NewProxyTournamentTree [[[("l", "aaa")]], [[("l", "bbb")]]]).aux j
          = some n ∧
        n.previousAuxIndex = -1 ∧
        ((n.previousNodeIndex.toNat : Nat) : Int) =
          (⟨[⟨[[("l", "aaa")]], 0⟩, ⟨[[("l", "bbb")]], 0⟩], [some 0, some 1],
            [none], 0⟩ : ProxyTournamentTree).lastChangedNodeIndex ∧
        (⟨[⟨[[("l", "aaa")]], 0⟩, ⟨[[("l", "bbb")]], 0⟩], [some 0, some 1],
          [none], 0⟩ : ProxyTournamentTree).aux j = none) :=
  C10_pop_frame (NewProxyTournamentTree [[[("l", "aaa")]], [[("l", "bbb")]]])
    0
    ⟨[⟨[[("l", "aaa")]], 0⟩, ⟨[[("l", "bbb")]], 0⟩], [some 0, some 1],
      [none], 0⟩
    (by decide)

end ProxyMerge
